import Mathlib

/-!
Verification of the reactive-state core of `react-rx-signals`.

The development shallowly embeds the equality engine, the signal setter
(`src/signal.ts`), the store setter and selector machinery (`src/store.ts`),
the computed-observable LRU cache (`FastComputedCache` and `createComputed`
in `src/signal.ts`), the general `shallowEqual` (`src/selectors.ts`, re-exported
from `src/index.ts`), and the `useStore` subscription bridge pipeline
(`src/useStore.ts`).

JavaScript runtime values are modelled by `JSVal`: numbers are integers plus
the two values with special `Object.is` behaviour (`NaN` and `-0`), objects and
functions are references into an explicit heap / function environment, so
reference identity (`Object.is` on objects) is ref-id equality.  RxJS 7
behaviour that the code relies on (BehaviorSubject synchronous multicast,
`distinctUntilChanged`, exclusive `takeWhile`, per-subscriber error isolation
in `SafeSubscriber`) is modelled explicitly where a claim depends on it.
-/

namespace RxSignals

/-- JavaScript numbers, restricted to the values whose `Object.is` behaviour
the code distinguishes: `NaN`, negative zero, and ordinary (integer-valued)
doubles.  `num 0` denotes positive zero. -/
inductive JSNum where
  | nan
  | negZero
  | num (v : Int)
deriving DecidableEq, Repr

/-- A JavaScript runtime value.  Objects and functions are references into an
external heap / function environment, so `Object.is` on them is reference
equality. -/
inductive JSVal where
  | undefVal
  | null
  | bool (b : Bool)
  | num (n : JSNum)
  | str (s : String)
  | obj (ref : Nat)
  | fn (ref : Nat)
deriving DecidableEq, Repr

/-- ECMA-262 SameValue on numbers: `NaN` equals itself, `+0` and `-0` are
distinguished, other numbers compare by value. -/
def sameValueNum : JSNum → JSNum → Bool
  | .nan, .nan => true
  | .negZero, .negZero => true
  | .num a, .num b => a == b
  | _, _ => false

/-- `Object.is` (the `STRICT_EQUAL` constant of `src/signal.ts` line 10):
ECMA-262 SameValue.  Strings/booleans compare by value, objects and functions
by reference. -/
def objectIs : JSVal → JSVal → Bool
  | .undefVal, .undefVal => true
  | .null, .null => true
  | .bool a, .bool b => a == b
  | .num a, .num b => sameValueNum a b
  | .str a, .str b => a == b
  | .obj a, .obj b => a == b
  | .fn a, .fn b => a == b
  | _, _ => false

/-- JavaScript truthiness (`if (x)`): `undefined`, `null`, `false`, `NaN`,
`±0` and the empty string are falsy, everything else is truthy. -/
def truthy : JSVal → Bool
  | .undefVal => false
  | .null => false
  | .bool b => b
  | .num .nan => false
  | .num .negZero => false
  | .num (.num v) => v != 0
  | .str s => !(s == "")
  | .obj _ => true
  | .fn _ => true

/-- Association-list lookup (first matching key wins), used to model both
JavaScript object property tables and `Map`s. -/
def alookup {α β : Type} [DecidableEq α] (k : α) : List (α × β) → Option β
  | [] => none
  | (k1, v) :: rest => if k1 = k then some v else alookup k rest

/-- A heap assigning each object reference its table of own enumerable
properties.  JavaScript objects have unique keys; theorems that need this
carry an explicit `Nodup` hypothesis. -/
def Heap : Type := Nat → List (String × JSVal)

/-!
## Signal cells (`createSignal` in `src/signal.ts`)

The setter (lines 49–121) distinguishes an updater function from a literal
value by reading the argument's `call` property and testing its truthiness
(`if ((value as { call?: unknown }).call)`).  Reading a property of `null` or
`undefined` throws a `TypeError`, which the surrounding `try/catch` swallows
(`return`), and invoking a non-function likewise throws and is swallowed, so
in those cases the setter returns with the stored value untouched and nobody
notified.  After equality gating with `Object.is`, `subject.next(newValue)`
stores the value and synchronously notifies every current subscriber in
registration order; in RxJS 7 an exception thrown by a consumer callback is
caught per-subscriber inside `SafeSubscriber.next` and reported out of band,
so it neither stops the pass nor propagates to the caller of `set`.
-/

/-- The environment giving each function reference its behaviour when called
with one argument: a result value, or a thrown exception (`Except.error`). -/
def FnEnv : Type := Nat → JSVal → Except Unit JSVal

/-- Reading `arg.call`: throws on `null`/`undefined`; a function's `call`
property is `Function.prototype.call` (a function value, hence truthy),
modelled as an unspecified function reference; primitives box to wrappers
whose prototypes have no `call`, giving `undefined`; objects read their own
property table. -/
def getCallProp (H : Heap) : JSVal → Except Unit JSVal
  | .undefVal => .error ()
  | .null => .error ()
  | .fn _ => .ok (.fn 0)
  | .obj r => .ok ((alookup "call" (H r)).getD .undefVal)
  | _ => .ok .undefVal

/-- Calling a value as a function (`(value as (prev: T) => T)(current)`):
function references run their environment behaviour, anything else throws a
`TypeError`. -/
def invoke (F : FnEnv) (v : JSVal) (arg : JSVal) : Except Unit JSVal :=
  match v with
  | .fn r => F r arg
  | _ => .error ()

/-- State owned by a signal cell: the `BehaviorSubject`'s current value and
its subscriber list (subscriber ids, in registration order). -/
structure SigState where
  value : JSVal
  subs : List Nat
deriving DecidableEq, Repr

/-- The observable outcome of one `set` call: the new cell state, the
subscriber invocations performed (subscriber id paired with the delivered
value, in order), and the subscriber exceptions caught and reported out of
band by RxJS. -/
structure SetResult where
  state : SigState
  invocations : List (Nat × JSVal)
  reported : List Nat
deriving DecidableEq, Repr

/-- Whether a given subscriber's callback throws when invoked. -/
def Throws : Type := Nat → Bool

/-- One multicast notification pass of `subject.next` (RxJS 7): each
subscriber's callback is invoked with the new value inside a per-subscriber
`try/catch` (`SafeSubscriber`/`ConsumerObserver.next`), a thrown exception is
recorded for out-of-band reporting, and the pass continues with the remaining
subscribers. -/
def notifyPass (th : Throws) (v : JSVal) : List Nat → List (Nat × JSVal) × List Nat
  | [] => ([], [])
  | s :: rest =>
      let caught : List Nat := if th s then [s] else []
      let tail := notifyPass th v rest
      ((s, v) :: tail.1, caught ++ tail.2)

/-- The signal setter (`src/signal.ts` lines 49–121).  `H` is the object
heap, `F` the function environment, `th` records which subscriber callbacks
throw. -/
def setter (H : Heap) (F : FnEnv) (th : Throws) (st : SigState) (arg : JSVal) :
    SetResult :=
  let current := st.value
  match getCallProp H arg with
  | .error _ => ⟨st, [], []⟩
  | .ok c =>
    let newValue? : Option JSVal :=
      if truthy c then
        match invoke F arg current with
        | .error _ => none
        | .ok nv => some nv
      else some arg
    match newValue? with
    | none => ⟨st, [], []⟩
    | some newValue =>
      if objectIs current newValue then ⟨st, [], []⟩
      else
        let pass := notifyPass th newValue st.subs
        ⟨⟨newValue, st.subs⟩, pass.1, pass.2⟩

/-!
## Stores (`createStore` in `src/store.ts`)

`set` accepts a partial record or an updater; for a partial record it builds
`{ ...prev, ...update }` (keys of `prev` in order, overridden where present in
the update, followed by the update's new keys), gates through the local
`shallowEqual`, and emits only on change.  Because the spread always allocates
a fresh object, the `Object.is(a, b)` reference fast path of that
`shallowEqual` can never fire on `(prev, newValue)`; the remainder — key-count
check plus per-key `hasOwnProperty` and `Object.is` — is modelled by
`shallowEqualRecs`.
-/

/-- A JavaScript object's own property table (insertion-ordered). -/
abbrev Rec : Type := List (String × JSVal)

/-- The object spread `{ ...prev, ...update }`. -/
def mergeRecords (prev u : Rec) : Rec :=
  prev.map (fun kv => (kv.1, (alookup kv.1 u).getD kv.2))
    ++ u.filter (fun kv => (alookup kv.1 prev).isNone)

/-- The `shallowEqual` of `src/store.ts` (lines 19–38) applied beyond its
reference fast path: `Object.keys` length comparison, then per-key
`hasOwnProperty` and `Object.is`. -/
def shallowEqualRecs (a b : Rec) : Bool :=
  a.length == b.length &&
    a.all (fun kv =>
      match alookup kv.1 b with
      | some w => objectIs kv.2 w
      | none => false)

/-- The store setter (`src/store.ts` lines 47–56) on a partial-record update:
merge, gate through shallow equality, and keep the previous object when the
gate holds.  The returned record is the store's value after the call. -/
def storeSet (prev u : Rec) : Rec :=
  let newValue := mergeRecords prev u
  if shallowEqualRecs prev newValue then prev else newValue

/-!
## General `shallowEqual` (`src/selectors.ts`, re-exported by `src/index.ts`)
-/

/-- `typeof x === 'object'` — note `typeof null` is `'object'`. -/
def isObjectType : JSVal → Bool
  | .obj _ => true
  | .null => true
  | _ => false

/-- Loose equality with null (`x == null`): true exactly for `null` and
`undefined`. -/
def looseEqNull : JSVal → Bool
  | .null => true
  | .undefVal => true
  | _ => false

/-- `shallowEqual` from `src/selectors.ts` lines 68–95: `Object.is` fast
path; reject non-objects and null; then compare key counts and per-key
`hasOwnProperty` + `Object.is` one level deep. -/
def shallowEqual (H : Heap) (a b : JSVal) : Bool :=
  if objectIs a b then true
  else if !isObjectType a || !isObjectType b || looseEqNull a || looseEqNull b then
    false
  else
    match a, b with
    | .obj ra, .obj rb => shallowEqualRecs (H ra) (H rb)
    | _, _ => false

/-!
## Computed-observable cache (`src/signal.ts` lines 192–386)

`FastComputedCache` is a JavaScript `Map` used as an LRU: `get` re-inserts a
found entry at the end, `set` first evicts the first (least recently used) key
when `size >= maxSize` and then inserts.  `createComputed` keys the global
cache by `` `${sourceId}:${computeId}` ``: `computeId` is a fresh
`compute_${n}` per projection-function reference (a `WeakMap` plus counter),
while `sourceId` is `source$.__signalId__ || source$.toString()`.  Nothing in
the repository ever assigns `__signalId__`, and RxJS `Observable`s inherit
`Object.prototype.toString`, so the fallback is the constant string
`"[object Object]"` for every source.  The key is modelled as the pair
`(sourceId, computeId)`; the string concatenation the code performs is
injective on the ids the code generates. -/

/-- A computed-cache key: source identity string paired with the numeric
compute id. -/
abbrev CKey : Type := String × Nat

/-- `maxSize` of `FastComputedCache`. -/
def maxCacheSize : Nat := 100

/-- `FastComputedCache.get`: on a hit, delete and re-append the entry (LRU
touch) and return its value.  Cached values are Observables, which are always
truthy, so `if (value)` is a hit test. -/
def fcGet (k : CKey) (c : List (CKey × Nat)) : Option Nat × List (CKey × Nat) :=
  match alookup k c with
  | none => (none, c)
  | some v => (some v, c.eraseP (fun e => decide (e.1 = k)) ++ [(k, v)])

/-- `FastComputedCache.set`: when `size >= maxSize`, delete the first key;
then `Map.set` (update in place if the key exists, else append). -/
def fcSet (k : CKey) (v : Nat) (c : List (CKey × Nat)) : List (CKey × Nat) :=
  let c1 :=
    if maxCacheSize ≤ c.length then
      match c.head? with
      | some e0 => c.eraseP (fun e => decide (e.1 = e0.1))
      | none => c
    else c
  if c1.any (fun e => decide (e.1 = k)) then
    c1.map (fun e => if e.1 = k then (k, v) else e)
  else c1 ++ [(k, v)]

/-- An RxJS source observable as `createComputed` sees it: its object
identity, and its `__signalId__` property (never assigned anywhere in the
repository). -/
structure SourceObs where
  ref : Nat
  signalId : Option String
deriving DecidableEq, Repr

/-- `source$.__signalId__ || source$.toString()`: the id string when present
(and non-empty, hence truthy), else the constant `Object.prototype.toString`
result. -/
def sourceIdOf (s : SourceObs) : String :=
  s.signalId.getD "[object Object]"

/-- The module-level mutable state of `src/signal.ts` used by
`createComputed`: the `WeakMap` of function refs to compute ids, the id
counter, the global LRU cache, and a supply of fresh derived-stream object
identities. -/
structure CCState where
  ids : List (Nat × Nat)
  counter : Nat
  cache : List (CKey × Nat)
  nextStream : Nat
deriving DecidableEq, Repr

/-- `getComputeId`: look the function reference up in the `WeakMap`; on a
miss allocate `compute_${++computeIdCounter}`. -/
def getComputeId (f : Nat) (st : CCState) : Nat × CCState :=
  match alookup f st.ids with
  | some i => (i, st)
  | none =>
      let i := st.counter + 1
      (i, { st with ids := st.ids ++ [(f, i)], counter := i })

/-- `createComputed(source$, compute)` (`src/signal.ts` lines 255–386)
restricted to its caching behaviour: build the cache key, return the cached
derived stream on a hit, otherwise allocate a fresh derived-stream object,
cache it, and return it. -/
def createComputed (s : SourceObs) (f : Nat) (st : CCState) : Nat × CCState :=
  let idPair := getComputeId f st
  let key : CKey := (sourceIdOf s, idPair.1)
  let st1 := idPair.2
  match fcGet key st1.cache with
  | (some r, c1) => (r, { st1 with cache := c1 })
  | (none, _) =>
      let r := st1.nextStream
      (r, { st1 with cache := fcSet key r st1.cache, nextStream := r + 1 })

/-- The initial module state: empty `WeakMap`, counter `0`, empty cache. -/
def ccInit : CCState := ⟨[], 0, [], 0⟩

/-!
## Subscription bridge (`useStore` in `src/useStore.ts`)

The subscribe function pipes the source through
`distinctUntilChanged → takeWhile(condition)` and then a subscriber whose
`next` re-checks against `currentValueRef` before calling `onStoreChange`.
RxJS `takeWhile` with its default `inclusive: false` completes (and
unsubscribes upstream) on the first value failing the predicate *without
emitting that value*.  The model runs a numeric source sequence through this
pipeline; `delivered` collects the values for which `onStoreChange` fired,
i.e. the values that reach the pull-based consumer. -/

/-- Bridge pipeline state: whether the subscription is still live, the
`distinctUntilChanged` memory, the `currentValueRef` snapshot, and the values
propagated to the consumer. -/
structure BridgeState where
  active : Bool
  lastEmitted : Option Int
  current : Int
  delivered : List Int
deriving DecidableEq, Repr

/-- A value that passed `distinctUntilChanged`: record it, then apply
`takeWhile(cond)` — on failure the bridge unsubscribes permanently without
emitting — then the subscriber's `next` with its `hasChanged` re-check. -/
def bridgeNext (cond : Int → Bool) (st : BridgeState) (v : Int) : BridgeState :=
  let st1 := { st with lastEmitted := some v }
  if cond v then
    if st1.current = v then st1
    else { st1 with current := v, delivered := st1.delivered ++ [v] }
  else { st1 with active := false }

/-- One source emission through the bridge: dropped if the subscription has
terminated, deduplicated by `distinctUntilChanged` (`Object.is`, which on
the integers used here is plain equality), else handed to `bridgeNext`. -/
def bridgeStep (cond : Int → Bool) (st : BridgeState) (v : Int) : BridgeState :=
  if st.active then
    match st.lastEmitted with
    | some prev => if prev = v then st else bridgeNext cond st v
    | none => bridgeNext cond st v
  else st

/-- Run the bridge over a sequence of source emissions. -/
def bridgeRun (cond : Int → Bool) (st : BridgeState) (vs : List Int) : BridgeState :=
  vs.foldl (bridgeStep cond) st

/-- The bridge state right after subscribing over a counter signal currently
at `0`, with `currentValueRef` seeded from the initial value `0`. -/
def bridgeInit : BridgeState := ⟨true, none, 0, []⟩

/-!
## Specification-side definitions used for refinement comparison
-/

/-- `Object.keys` as the spec's claim about `shallowEqual` reads it: the key
list of a record argument, empty for non-objects. -/
def keyListOf (H : Heap) : JSVal → List String
  | .obj r => (H r).map Prod.fst
  | _ => []

/-- Property read of `a[k]` for a record argument, `none` otherwise. -/
def propOf (H : Heap) (a : JSVal) (k : String) : Option JSVal :=
  match a with
  | .obj r => alookup k (H r)
  | _ => none

/-- The spec's wording of the `shallowEqual` contract (claim C8), stated for
comparison with the implementation: "true iff both arguments are non-null,
have the same set of keys, and identity equality holds for every
corresponding value". -/
def specShallowEqualProp (H : Heap) (a b : JSVal) : Prop :=
  a ≠ JSVal.null ∧ b ≠ JSVal.null
    ∧ (∀ k, k ∈ keyListOf H a ↔ k ∈ keyListOf H b)
    ∧ (∀ k v w, propOf H a k = some v → propOf H b k = some w →
        objectIs v w = true)

/-!
## Concrete instances used by counterexamples and witnesses
-/

/-- A cache at the configured bound: 100 entries, keys `("src", 0)` …
`("src", 99)`, inserted in that order, none of them touched since. -/
def fullCache : List (CKey × Nat) :=
  (List.range 100).map (fun i => (("src", i), i))

/-- A live-subscriber count assignment under which the least-recently-used
entry `("src", 0)` of `fullCache` has one live subscriber. -/
def liveSubsCex : CKey → Nat :=
  fun k => if k = ("src", 0) then 1 else 0

/-- A full cache written in head/tail form for the eviction theorem's
witness: the head is the least-recently-used entry. -/
def wCache : List (CKey × Nat) :=
  (("a", 0), 0) :: (List.range 99).map (fun i => (("b", i), i + 1))

/-!
## Theorems

Helper lemmas first, then one theorem per claim (with witnesses and
counterexamples as separate closed theorems).
-/

theorem sameValueNum_refl (n : JSNum) : sameValueNum n n = true := by
  cases n <;> simp [sameValueNum]

theorem objectIs_refl (v : JSVal) : objectIs v v = true := by
  cases v <;> simp [objectIs, sameValueNum_refl]

theorem notifyPass_fst (th : Throws) (v : JSVal) (subs : List Nat) :
    (notifyPass th v subs).1 = subs.map (fun s => (s, v)) := by
  induction subs with
  | nil => rfl
  | cons s rest ih => simp [notifyPass, ih]

theorem notifyPass_snd (th : Throws) (v : JSVal) (subs : List Nat) :
    (notifyPass th v subs).2 = subs.filter th := by
  induction subs with
  | nil => rfl
  | cons s rest ih =>
      simp only [notifyPass, ih, List.filter]
      cases th s <;> simp

theorem alookup_append {α β : Type} [DecidableEq α] (k : α) (a b : List (α × β)) :
    alookup k (a ++ b) =
      match alookup k a with
      | some v => some v
      | none => alookup k b := by
  induction a with
  | nil => simp [alookup]
  | cons e rest ih =>
      by_cases h : e.1 = k <;> simp [alookup, h, ih]

theorem alookup_eq_none_iff {α β : Type} [DecidableEq α] (k : α)
    (l : List (α × β)) : alookup k l = none ↔ k ∉ l.map Prod.fst := by
  induction l with
  | nil => simp [alookup]
  | cons e rest ih =>
      by_cases h : e.1 = k
      · simp [alookup, h]
      · simp [alookup, h, ih]
        exact fun _ hh => h hh.symm

theorem alookup_mem {α β : Type} [DecidableEq α] {k : α} {v : β}
    {l : List (α × β)} (h : alookup k l = some v) : (k, v) ∈ l := by
  induction l with
  | nil => simp [alookup] at h
  | cons e rest ih =>
      by_cases he : e.1 = k
      · simp [alookup, he] at h
        subst he h
        simp
      · simp [alookup, he] at h
        exact List.mem_cons_of_mem _ (ih h)

theorem alookup_of_mem_nodup {α β : Type} [DecidableEq α] {k : α} {v : β}
    {l : List (α × β)} (hnd : (l.map Prod.fst).Nodup) (hm : (k, v) ∈ l) :
    alookup k l = some v := by
  induction l with
  | nil => simp at hm
  | cons e rest ih =>
      simp only [List.map_cons, List.nodup_cons] at hnd
      rcases List.mem_cons.mp hm with h | h
      · subst h
        simp [alookup]
      · have hne : e.1 ≠ k := by
          intro hek
          exact hnd.1 (hek ▸ (List.mem_map.mpr ⟨(k, v), h, rfl⟩))
        simp [alookup, hne, ih hnd.2 h]

theorem alookup_filter_none {α β : Type} [DecidableEq α] (k : α)
    (l : List (α × β)) (p : α × β → Bool) (h : alookup k l = none) :
    alookup k (l.filter p) = none := by
  induction l with
  | nil => simp [alookup]
  | cons e rest ih =>
      by_cases he : e.1 = k
      · simp [alookup, he] at h
      · simp only [alookup, he, if_false] at h
        by_cases hp : p e = true <;> simp [List.filter, hp, alookup, he, ih h]

theorem alookup_filter_keyPred {α β : Type} [DecidableEq α] (k : α)
    (l : List (α × β)) (q : α → Bool) :
    alookup k (l.filter (fun kv => q kv.1)) =
      if q k then alookup k l else none := by
  induction l with
  | nil => simp [alookup]
  | cons e rest ih =>
      by_cases he : e.1 = k
      · subst he
        by_cases hq : q e.1 = true <;>
          simp [List.filter, hq, alookup, ih]
      · by_cases hq : q e.1 = true <;>
          simp [List.filter, hq, alookup, he, ih]

theorem alookup_mergePart_none (prev u : Rec) (k : String)
    (hk : alookup k u = none) :
    alookup k (prev.map (fun kv => (kv.1, (alookup kv.1 u).getD kv.2)))
      = alookup k prev := by
  induction prev with
  | nil => rfl
  | cons e rest ih =>
      by_cases he : e.1 = k
      · subst he
        simp [alookup, hk]
      · simp [alookup, he, ih]

theorem alookup_mergePart_some (prev u : Rec) (k : String) (w : JSVal)
    (hk : alookup k u = some w) :
    alookup k (prev.map (fun kv => (kv.1, (alookup kv.1 u).getD kv.2)))
      = (alookup k prev).map (fun _ => w) := by
  induction prev with
  | nil => rfl
  | cons e rest ih =>
      by_cases he : e.1 = k
      · subst he
        simp [alookup, hk]
      · simp [alookup, he, ih]

theorem alookup_merge_none (prev u : Rec) (k : String)
    (hk : alookup k u = none) :
    alookup k (mergeRecords prev u) = alookup k prev := by
  unfold mergeRecords
  rw [alookup_append, alookup_mergePart_none prev u k hk]
  cases hp : alookup k prev with
  | some v => rfl
  | none => simp [alookup_filter_none k u _ hk]

theorem alookup_merge_some (prev u : Rec) (k : String) (w : JSVal)
    (hk : alookup k u = some w) :
    alookup k (mergeRecords prev u) = some w := by
  unfold mergeRecords
  rw [alookup_append, alookup_mergePart_some prev u k w hk]
  cases hp : alookup k prev with
  | some v => rfl
  | none =>
      have hq : alookup k (u.filter (fun kv => (alookup kv.1 prev).isNone))
          = some w := by
        rw [alookup_filter_keyPred k u (fun s => (alookup s prev).isNone)]
        simp [hp, hk]
      simp [hq]

/-- C5 (as stated by the spec) is false: `identityEqual` is `Object.is`, and
`Object.is(+0, -0)` is `false`, so positive and negative zero are treated as
distinct, not equal. -/
theorem objectIs_zero_cex :
    objectIs (JSVal.num (JSNum.num 0)) (JSVal.num JSNum.negZero) = false := by
  rfl

/-- C5 amended: the default equality (`Object.is`) treats every value compared
with itself as equal — including `NaN` compared with `NaN` — but treats
positive zero and negative zero as distinct. -/
theorem objectIs_sameValue_spec :
    (∀ v : JSVal, objectIs v v = true)
      ∧ objectIs (JSVal.num JSNum.nan) (JSVal.num JSNum.nan) = true
      ∧ objectIs (JSVal.num (JSNum.num 0)) (JSVal.num JSNum.negZero) = false
      ∧ objectIs (JSVal.num JSNum.negZero) (JSVal.num (JSNum.num 0)) = false := by
  refine ⟨objectIs_refl, rfl, rfl, rfl⟩

/-- C6: for every store state and partial-record update, `set` replaces
exactly the keys present in the partial — every key absent from the partial
retains its prior value after the call, and every key present in the partial
reads back (up to `Object.is`, which the equality gate may use to keep the
previous object) as the partial's value. -/
theorem storeSet_frame (prev u : Rec) :
    (∀ k, alookup k u = none →
        alookup k (storeSet prev u) = alookup k prev)
  ∧ (∀ k w, alookup k u = some w →
        ∃ v, alookup k (storeSet prev u) = some v ∧ objectIs v w = true) := by
  constructor
  · intro k hk
    unfold storeSet
    by_cases hg : shallowEqualRecs prev (mergeRecords prev u) = true
    · simp [hg]
    · simp only [Bool.not_eq_true] at hg
      simp [hg, alookup_merge_none prev u k hk]
  · intro k w hk
    unfold storeSet
    by_cases hg : shallowEqualRecs prev (mergeRecords prev u) = true
    · simp only [hg, if_true]
      rcases hp : alookup k prev with _ | v
      · exfalso
        have hlen : prev.length = (mergeRecords prev u).length := by
          have h2 := (Bool.and_eq_true _ _).mp hg
          simpa using h2.1
        have hmem : (k, w) ∈ u := alookup_mem hk
        have hfmem : (k, w) ∈ u.filter (fun kv => (alookup kv.1 prev).isNone) := by
          apply List.mem_filter.mpr
          exact ⟨hmem, by simp [hp]⟩
        have hpos : 0 < (u.filter (fun kv => (alookup kv.1 prev).isNone)).length :=
          List.length_pos.mpr (fun hnil => by simp [hnil] at hfmem)
        have : (mergeRecords prev u).length = prev.length
            + (u.filter (fun kv => (alookup kv.1 prev).isNone)).length := by
          simp [mergeRecords]
        omega
      · refine ⟨v, rfl, ?_⟩
        have hall := (List.all_eq_true.mp ((Bool.and_eq_true _ _).mp hg).2)
          (k, v) (alookup_mem hp)
        rw [alookup_merge_some prev u k w hk] at hall
        exact hall
    · simp only [Bool.not_eq_true] at hg
      simp only [hg, Bool.false_eq_true, if_false]
      exact ⟨w, alookup_merge_some prev u k w hk, objectIs_refl w⟩

/-- Witness for `storeSet_frame`: a store `{name: "A", age: 1}` updated with
the partial `{age: 2}` keeps `name` untouched and stores the new `age`. -/
theorem storeSet_frame_witness :
    alookup "name" (storeSet
        [("name", JSVal.str "A"), ("age", JSVal.num (JSNum.num 1))]
        [("age", JSVal.num (JSNum.num 2))])
      = alookup "name" [("name", JSVal.str "A"), ("age", JSVal.num (JSNum.num 1))]
    ∧ ∃ v, alookup "age" (storeSet
        [("name", JSVal.str "A"), ("age", JSVal.num (JSNum.num 1))]
        [("age", JSVal.num (JSNum.num 2))])
        = some v ∧ objectIs v (JSVal.num (JSNum.num 2)) = true := by
  refine ⟨?_, ?_⟩
  · exact (storeSet_frame
      [("name", JSVal.str "A"), ("age", JSVal.num (JSNum.num 1))]
      [("age", JSVal.num (JSNum.num 2))]).1 "name" (by decide)
  · exact (storeSet_frame
      [("name", JSVal.str "A"), ("age", JSVal.num (JSNum.num 1))]
      [("age", JSVal.num (JSNum.num 2))]).2 "age" (JSVal.num (JSNum.num 2))
      (by decide)

/-- C2 as stated — for *every* value `v`, if the equality did not hold then
every prior subscriber is invoked with `v` and `get()` returns `v` — is false
at a concrete input: on a cell holding `1` with one subscriber, `set(null)`
finds `Object.is(1, null)` false, yet reading `null.call` throws, the catch
swallows it, and the setter returns with no subscriber invoked and the stored
value still `1`. -/
theorem setter_null_gating_cex :
    objectIs (JSVal.num (JSNum.num 1)) JSVal.null = false
      ∧ (setter (fun _ => []) (fun _ _ => Except.error ()) (fun _ => false)
          ⟨JSVal.num (JSNum.num 1), [0]⟩ JSVal.null).invocations = []
      ∧ (setter (fun _ => []) (fun _ _ => Except.error ()) (fun _ => false)
          ⟨JSVal.num (JSNum.num 1), [0]⟩ JSVal.null).state.value
        = JSVal.num (JSNum.num 1) :=
  ⟨rfl, rfl, rfl⟩

/-- C2 amended: for every cell and every *plain* value `v` — one that is not
`null`/`undefined` and whose `call` property is not truthy, since those
arguments take the swallowed-TypeError or updater path and are never stored —
after `set(v)` returns: if `Object.is(old, v)` held, nothing changed and
nobody was notified; otherwise the stored value is `v` and every subscriber
registered before the call was invoked exactly once with `v`, in registration
order.  Calling `set(v)` twice in a row notifies at most once: the second
call's notification pass is empty. -/
theorem setter_set_invariant (H : Heap) (F : FnEnv) (th : Throws)
    (st : SigState) (v c : JSVal) (hget : getCallProp H v = Except.ok c)
    (hc : truthy c = false) :
    (objectIs st.value v = true → setter H F th st v = ⟨st, [], []⟩)
  ∧ (objectIs st.value v = false →
      (setter H F th st v).state.value = v
        ∧ (setter H F th st v).invocations = st.subs.map (fun s => (s, v)))
  ∧ (setter H F th ((setter H F th st v).state) v).invocations = [] := by
  refine ⟨?_, ?_, ?_⟩
  · intro he
    simp [setter, hget, hc, he]
  · intro hne
    simp [setter, hget, hc, hne, notifyPass_fst]
  · by_cases he : objectIs st.value v = true
    · simp [setter, hget, hc, he]
    · simp only [Bool.not_eq_true] at he
      simp [setter, hget, hc, he, objectIs_refl]

/-- Witness for `setter_set_invariant`: a signal at `0` with subscribers
`[0, 1]` set to `5` stores `5` and notifies both subscribers once, in order;
a second `set(5)` notifies nobody. -/
theorem setter_set_invariant_witness :
    ((setter (fun _ => []) (fun _ _ => Except.error ()) (fun _ => false)
          ⟨JSVal.num (JSNum.num 0), [0, 1]⟩ (JSVal.num (JSNum.num 5))).state.value
        = JSVal.num (JSNum.num 5)
      ∧ (setter (fun _ => []) (fun _ _ => Except.error ()) (fun _ => false)
          ⟨JSVal.num (JSNum.num 0), [0, 1]⟩ (JSVal.num (JSNum.num 5))).invocations
        = [(0, JSVal.num (JSNum.num 5)), (1, JSVal.num (JSNum.num 5))])
    ∧ (setter (fun _ => []) (fun _ _ => Except.error ()) (fun _ => false)
        ((setter (fun _ => []) (fun _ _ => Except.error ()) (fun _ => false)
          ⟨JSVal.num (JSNum.num 0), [0, 1]⟩ (JSVal.num (JSNum.num 5))).state)
        (JSVal.num (JSNum.num 5))).invocations = [] := by
  have h := setter_set_invariant (fun _ => []) (fun _ _ => Except.error ())
    (fun _ => false) ⟨JSVal.num (JSNum.num 0), [0, 1]⟩
    (JSVal.num (JSNum.num 5)) JSVal.undefVal rfl rfl
  exact ⟨h.2.1 rfl, h.2.2⟩

/-- C7: if subscriber callbacks raise during a notification pass, every
subscriber in the pass is still invoked with the new value, the stored value
and the subscriber list are exactly what a fault-free pass produces, and the
exceptions are only collected out of band — `setter` returns normally for
every fault assignment `th`, so nothing is re-thrown into the caller of
`set`. -/
theorem setter_fault_isolation (H : Heap) (F : FnEnv) (th : Throws)
    (st : SigState) (v c : JSVal) (hget : getCallProp H v = Except.ok c)
    (hc : truthy c = false) (hne : objectIs st.value v = false) :
    (setter H F th st v).invocations = st.subs.map (fun s => (s, v))
  ∧ (setter H F th st v).state = ⟨v, st.subs⟩
  ∧ (setter H F th st v).reported = st.subs.filter th := by
  refine ⟨?_, ?_, ?_⟩ <;>
    simp [setter, hget, hc, hne, notifyPass_fst, notifyPass_snd]

/-- Witness for `setter_fault_isolation`: subscriber `0` throws, subscriber
`1` is still invoked with the new value, the state is intact, and the single
exception is reported out of band. -/
theorem setter_fault_isolation_witness :
    (setter (fun _ => []) (fun _ _ => Except.error ()) (fun s => s == 0)
        ⟨JSVal.str "old", [0, 1]⟩ (JSVal.str "new")).invocations
      = [(0, JSVal.str "new"), (1, JSVal.str "new")]
    ∧ (setter (fun _ => []) (fun _ _ => Except.error ()) (fun s => s == 0)
        ⟨JSVal.str "old", [0, 1]⟩ (JSVal.str "new")).state
      = ⟨JSVal.str "new", [0, 1]⟩
    ∧ (setter (fun _ => []) (fun _ _ => Except.error ()) (fun s => s == 0)
        ⟨JSVal.str "old", [0, 1]⟩ (JSVal.str "new")).reported = [0] := by
  have h := setter_fault_isolation (fun _ => []) (fun _ _ => Except.error ())
    (fun s => s == 0) ⟨JSVal.str "old", [0, 1]⟩ (JSVal.str "new")
    JSVal.undefVal rfl rfl rfl
  exact ⟨h.1, h.2.1, h.2.2⟩

/-- C9: `set(null)` and `set(undefined)` are swallowed no-ops — reading the
argument's `call` property throws, the `catch` returns early — so the stored
value is unchanged (even when it differs from the argument) and nobody is
notified; and any non-function argument whose `call` property is truthy is
treated as an updater, whose invocation throws, so such a value is never
stored. -/
theorem setter_nullish_and_callable (H : Heap) (F : FnEnv) (th : Throws)
    (st : SigState) :
    (objectIs st.value JSVal.null = false →
        setter H F th st JSVal.null = ⟨st, [], []⟩)
  ∧ (objectIs st.value JSVal.undefVal = false →
        setter H F th st JSVal.undefVal = ⟨st, [], []⟩)
  ∧ (∀ arg c, (∀ r, arg ≠ JSVal.fn r) → getCallProp H arg = Except.ok c →
        truthy c = true → setter H F th st arg = ⟨st, [], []⟩) := by
  refine ⟨fun _ => rfl, fun _ => rfl, ?_⟩
  intro arg c hnf hget hc
  have hinv : invoke F arg st.value = Except.error () := by
    cases arg with
    | fn r => exact absurd rfl (hnf r)
    | _ => rfl
  simp [setter, hget, hc, hinv]

/-- Witness for `setter_nullish_and_callable`: a signal at `1` ignores
`set(null)`, `set(undefined)`, and `set({call: true})`. -/
theorem setter_nullish_and_callable_witness :
    setter (fun _ => [("call", JSVal.bool true)]) (fun _ _ => Except.error ())
        (fun _ => false) ⟨JSVal.num (JSNum.num 1), [2]⟩ JSVal.null
      = ⟨⟨JSVal.num (JSNum.num 1), [2]⟩, [], []⟩
    ∧ setter (fun _ => [("call", JSVal.bool true)]) (fun _ _ => Except.error ())
        (fun _ => false) ⟨JSVal.num (JSNum.num 1), [2]⟩ JSVal.undefVal
      = ⟨⟨JSVal.num (JSNum.num 1), [2]⟩, [], []⟩
    ∧ setter (fun _ => [("call", JSVal.bool true)]) (fun _ _ => Except.error ())
        (fun _ => false) ⟨JSVal.num (JSNum.num 1), [2]⟩ (JSVal.obj 0)
      = ⟨⟨JSVal.num (JSNum.num 1), [2]⟩, [], []⟩ := by
  have h := setter_nullish_and_callable (fun _ => [("call", JSVal.bool true)])
    (fun _ _ => Except.error ()) (fun _ => false) ⟨JSVal.num (JSNum.num 1), [2]⟩
  refine ⟨h.1 rfl, h.2.1 rfl, ?_⟩
  exact h.2.2 (JSVal.obj 0) (JSVal.bool true) (fun r => by simp) rfl rfl

/-- C10: if the updater function passed to `set` throws, the stored value is
unchanged, no subscriber is notified, and the exception is not propagated —
the setter returns the untouched state. -/
theorem setter_updater_throw (H : Heap) (F : FnEnv) (th : Throws)
    (st : SigState) (r : Nat) (hthrow : F r st.value = Except.error ()) :
    setter H F th st (JSVal.fn r) = ⟨st, [], []⟩ := by
  simp [setter, getCallProp, truthy, invoke, hthrow]

/-- Witness for `setter_updater_throw`: an always-throwing updater leaves the
signal at `"a"` with its subscriber list intact and notifies nobody. -/
theorem setter_updater_throw_witness :
    setter (fun _ => []) (fun _ _ => Except.error ()) (fun _ => false)
        ⟨JSVal.str "a", [3]⟩ (JSVal.fn 9)
      = ⟨⟨JSVal.str "a", [3]⟩, [], []⟩ :=
  setter_updater_throw (fun _ => []) (fun _ _ => Except.error ())
    (fun _ => false) ⟨JSVal.str "a", [3]⟩ 9 rfl

theorem key_set_eq_of_subset_len {l1 l2 : List String}
    (hnd1 : l1.Nodup) (hnd2 : l2.Nodup) (hlen : l1.length = l2.length)
    (hsub : ∀ k, k ∈ l1 → k ∈ l2) : ∀ k, k ∈ l1 ↔ k ∈ l2 := by
  have hf : l1.toFinset ⊆ l2.toFinset := by
    intro x hx
    exact List.mem_toFinset.mpr (hsub x (List.mem_toFinset.mp hx))
  have hcard : l2.toFinset.card ≤ l1.toFinset.card := by
    rw [List.toFinset_card_of_nodup hnd1, List.toFinset_card_of_nodup hnd2]
    omega
  have heq := Finset.eq_of_subset_of_card_le hf hcard
  intro k
  constructor
  · exact hsub k
  · intro hk
    exact List.mem_toFinset.mp (heq ▸ List.mem_toFinset.mpr hk)

theorem shallowEqualRecs_iff (a b : Rec)
    (hna : (a.map Prod.fst).Nodup) (hnb : (b.map Prod.fst).Nodup) :
    shallowEqualRecs a b = true ↔
      ((∀ k, k ∈ a.map Prod.fst ↔ k ∈ b.map Prod.fst)
        ∧ (∀ k v w, alookup k a = some v → alookup k b = some w →
            objectIs v w = true)) := by
  constructor
  · intro h
    obtain ⟨hlen, hall⟩ := (Bool.and_eq_true _ _).mp h
    have hlen2 : a.length = b.length := by simpa using hlen
    have hall2 := List.all_eq_true.mp hall
    have hsub : ∀ k, k ∈ a.map Prod.fst → k ∈ b.map Prod.fst := by
      intro k hk
      rcases List.mem_map.mp hk with ⟨kv, hkv, rfl⟩
      have hp := hall2 kv hkv
      cases hb : alookup kv.1 b with
      | none =>
          rw [hb] at hp
          cases hp
      | some w =>
          by_contra hnk
          rw [(alookup_eq_none_iff kv.1 b).mpr hnk] at hb
          cases hb
    refine ⟨?_, ?_⟩
    · exact key_set_eq_of_subset_len hna hnb
        (by rw [List.length_map, List.length_map]; exact hlen2) hsub
    · intro k v w hva hvb
      have hp := hall2 (k, v) (alookup_mem hva)
      rw [hvb] at hp
      exact hp
  · intro h
    apply (Bool.and_eq_true _ _).mpr
    have hleneq : a.length = b.length := by
      have hfeq : (a.map Prod.fst).toFinset = (b.map Prod.fst).toFinset := by
        apply Finset.ext
        intro x
        rw [List.mem_toFinset, List.mem_toFinset]
        exact h.1 x
      have := congrArg Finset.card hfeq
      rw [List.toFinset_card_of_nodup hna, List.toFinset_card_of_nodup hnb,
        List.length_map, List.length_map] at this
      exact this
    refine ⟨by simpa using hleneq, ?_⟩
    apply List.all_eq_true.mpr
    intro kv hkv
    have hka : alookup kv.1 a = some kv.2 := alookup_of_mem_nodup hna hkv
    have hkb : kv.1 ∈ b.map Prod.fst :=
      (h.1 kv.1).mp (List.mem_map.mpr ⟨kv, hkv, rfl⟩)
    cases hb : alookup kv.1 b with
    | none => exact absurd ((alookup_eq_none_iff kv.1 b).mp hb) (by simp [hkb])
    | some w =>
        have := h.2 kv.1 kv.2 w hka hb
        simpa [hb] using this

theorem shallowEqual_eq_match (H : Heap) (a b : JSVal)
    (hid : objectIs a b = false) :
    shallowEqual H a b =
      match a, b with
      | JSVal.obj ra, JSVal.obj rb => shallowEqualRecs (H ra) (H rb)
      | _, _ => false := by
  cases a <;> cases b <;>
    simp [shallowEqual, hid, isObjectType, looseEqNull]

/-- C8 amended: `shallowEqual(a, b)` is true iff `Object.is(a, b)` holds, or
both arguments are (non-null) objects with the same set of keys and identity
equality for every corresponding value — nested objects are compared by
reference only, one level deep, since values are compared with `Object.is`.
The spec's unconditional "both arguments are non-null" requirement fails on
`shallowEqual(null, null)`, which returns true via the `Object.is` fast
path. -/
theorem shallowEqual_iff (H : Heap)
    (hwf : ∀ r, ((H r).map Prod.fst).Nodup) (a b : JSVal) :
    shallowEqual H a b = true ↔
      (objectIs a b = true
        ∨ ∃ ra rb, a = JSVal.obj ra ∧ b = JSVal.obj rb
            ∧ (∀ k, k ∈ (H ra).map Prod.fst ↔ k ∈ (H rb).map Prod.fst)
            ∧ (∀ k v w, alookup k (H ra) = some v →
                alookup k (H rb) = some w → objectIs v w = true)) := by
  by_cases hid : objectIs a b = true
  · constructor
    · intro _
      exact Or.inl hid
    · intro _
      simp [shallowEqual, hid]
  · simp only [Bool.not_eq_true] at hid
    rw [shallowEqual_eq_match H a b hid]
    constructor
    · intro h
      cases a <;> try (cases b <;> exact Bool.noConfusion h)
      cases b <;> try (exact Bool.noConfusion h)
      rename_i ra rb
      have hr := (shallowEqualRecs_iff (H ra) (H rb) (hwf ra) (hwf rb)).mp h
      exact Or.inr ⟨ra, rb, rfl, rfl, hr.1, hr.2⟩
    · rintro (h | ⟨ra, rb, ha, hb, h1, h2⟩)
      · rw [h] at hid
        cases hid
      · subst ha
        subst hb
        exact (shallowEqualRecs_iff _ _ (hwf ra) (hwf rb)).mpr ⟨h1, h2⟩

/-- C8 as stated is false at a concrete input: `shallowEqual(null, null)`
returns true (the `Object.is` fast path), but the spec's condition requires
both arguments to be non-null. -/
theorem shallowEqual_null_cex :
    shallowEqual (fun _ => []) JSVal.null JSVal.null = true
      ∧ ¬ specShallowEqualProp (fun _ => []) JSVal.null JSVal.null :=
  ⟨rfl, fun h => h.1 rfl⟩

/-- Witness for `shallowEqual_iff`: two distinct object references with the
same single-key table compare shallow-equal. -/
theorem shallowEqual_iff_witness :
    shallowEqual (fun _ => [("a", JSVal.num (JSNum.num 1))])
        (JSVal.obj 0) (JSVal.obj 1) = true ↔
      (objectIs (JSVal.obj 0) (JSVal.obj 1) = true
        ∨ ∃ ra rb, JSVal.obj 0 = JSVal.obj ra ∧ JSVal.obj 1 = JSVal.obj rb
            ∧ (∀ k, k ∈ ([("a", JSVal.num (JSNum.num 1))].map Prod.fst)
                ↔ k ∈ ([("a", JSVal.num (JSNum.num 1))].map Prod.fst))
            ∧ (∀ k v w, alookup k [("a", JSVal.num (JSNum.num 1))] = some v →
                alookup k [("a", JSVal.num (JSNum.num 1))] = some w →
                objectIs v w = true)) := by
  have hwf : ∀ r : Nat,
      ((((fun _ => [("a", JSVal.num (JSNum.num 1))]) : Heap) r).map
        Prod.fst).Nodup := by
    intro r
    show (["a"] : List String).Nodup
    decide
  exact shallowEqual_iff (fun _ => [("a", JSVal.num (JSNum.num 1))]) hwf
    (JSVal.obj 0) (JSVal.obj 1)

/-- C1's failing input: two distinct source observables, neither carrying a
`__signalId__` (none ever does — the property is never assigned anywhere in
the repository), with the same projection function.  Both cache keys collapse
to `("[object Object]", compute_1)`, so the second request returns the
derived stream created for the *first* source: distinct sources do not yield
distinct derived streams, contradicting the key-identity rule. -/
theorem createComputed_source_collision :
    (⟨1, none⟩ : SourceObs) ≠ (⟨2, none⟩ : SourceObs)
      ∧ (createComputed ⟨2, none⟩ 7 (createComputed ⟨1, none⟩ 7 ccInit).2).1
        = (createComputed ⟨1, none⟩ 7 ccInit).1 := by
  exact ⟨by decide, by decide⟩

/-- C4 as stated is false at a concrete input: with the cache at its bound
and the least-recently-used entry `("src", 0)` held by one live subscriber,
inserting a fresh entry still evicts `("src", 0)` — `FastComputedCache`
tracks no subscribers and `set` unconditionally deletes the first key. -/
theorem fcSet_evicts_live_entry_cex :
    0 < liveSubsCex ("src", 0)
      ∧ alookup (("src", 0) : CKey) (fcSet ("src", 100) 100 fullCache)
        = none := by
  exact ⟨by decide, by decide⟩

theorem alookup_map_update_none (rest : List (CKey × Nat)) (k e0k : CKey)
    (v : Nat) (h0 : e0k ∉ rest.map Prod.fst) (hk : e0k ≠ k) :
    alookup e0k (rest.map (fun e => if e.1 = k then (k, v) else e))
      = none := by
  induction rest with
  | nil => rfl
  | cons e rs ih =>
      simp only [List.map_cons, List.mem_cons, not_or] at h0
      rw [List.map_cons]
      by_cases he : e.1 = k
      · rw [if_pos he]
        have hne : ¬ (k = e0k) := fun hh => hk hh.symm
        simp only [alookup, hne, if_false]
        exact ih h0.2
      · rw [if_neg he]
        have hne : ¬ (e.1 = e0k) := fun hh => h0.1 hh.symm
        simp only [alookup, hne, if_false]
        exact ih h0.2

/-- C4 amended: on insertion into a full cache, the evicted entry is the
least-recently-used one (the first key of the `Map`), unconditionally — live
subscribers play no role, since the cache does not track them. -/
theorem fcSet_evicts_lru (c : List (CKey × Nat)) (e0 : CKey × Nat)
    (rest : List (CKey × Nat)) (k : CKey) (v : Nat)
    (hc : c = e0 :: rest) (hfull : maxCacheSize ≤ c.length)
    (hk : e0.1 ≠ k) (hnd : e0.1 ∉ rest.map Prod.fst) :
    alookup e0.1 (fcSet k v c) = none := by
  subst hc
  have herase : (e0 :: rest).eraseP (fun e => decide (e.1 = e0.1)) = rest := by
    simp [List.eraseP_cons]
  simp only [fcSet, if_pos hfull, List.head?_cons, herase]
  by_cases hany : (rest.any (fun e => decide (e.1 = k))) = true
  · rw [if_pos hany]
    exact alookup_map_update_none rest k e0.1 v hnd hk
  · rw [if_neg hany]
    rw [alookup_append]
    rw [(alookup_eq_none_iff e0.1 rest).mpr hnd]
    have hne : ¬ (k = e0.1) := fun hh => hk hh.symm
    simp [alookup, hne]

/-- Witness for `fcSet_evicts_lru`: inserting a fresh key into the
100-entry cache `wCache` evicts its least-recently-used head `("a", 0)`. -/
theorem fcSet_evicts_lru_witness :
    alookup (("a", 0) : CKey) (fcSet ("c", 5) 42 wCache) = none :=
  fcSet_evicts_lru wCache (("a", 0), 0)
    ((List.range 99).map (fun i => (("b", i), i + 1))) ("c", 5) 42
    rfl (by decide) (by decide) (by decide)

theorem bridgeStep_inactive (cond : Int → Bool) (st : BridgeState) (v : Int)
    (h : st.active = false) : bridgeStep cond st v = st := by
  simp [bridgeStep, h]

theorem bridgeRun_inactive (cond : Int → Bool) (st : BridgeState)
    (vs : List Int) (h : st.active = false) : bridgeRun cond st vs = st := by
  induction vs with
  | nil => rfl
  | cons v rest ih =>
      simp only [bridgeRun, List.foldl_cons, bridgeStep_inactive cond st v h]
      exact ih

/-- C3 as stated is false at its own scenario: with the continuation
predicate `value < 3` over a counter signal driven `0, 1, 2, 3, 4`, the
consumer receives exactly `1` and `2` — `takeWhile` (default
`inclusive: false`) completes on the first failing value *without emitting
it*, so `3` is not the last propagated value; it never reaches the consumer
at all (the repository's own test asserts the display stays at `2`). -/
theorem bridge_takeWhile_cex :
    (bridgeRun (fun v => decide (v < 3)) bridgeInit [0, 1, 2, 3, 4]).delivered
        = [1, 2]
      ∧ (3 : Int) ∉ (bridgeRun (fun v => decide (v < 3)) bridgeInit
          [0, 1, 2, 3, 4]).delivered := by
  exact ⟨by decide, by decide⟩

/-- C3 amended: with the predicate `value < 3`, the values `1` and `2`
propagate to the consumer, `2` is the last propagated value, `3` and `4`
never reach it, and once the predicate has returned false the bridge has
unsubscribed permanently: no further source emissions (any `extra`) change
its state. -/
theorem bridge_takeWhile_latch (extra : List Int) :
    (bridgeRun (fun v => decide (v < 3)) bridgeInit [0, 1, 2, 3, 4]).delivered
        = [1, 2]
      ∧ (bridgeRun (fun v => decide (v < 3)) bridgeInit
          [0, 1, 2, 3, 4]).active = false
      ∧ bridgeRun (fun v => decide (v < 3))
          (bridgeRun (fun v => decide (v < 3)) bridgeInit [0, 1, 2, 3, 4])
          extra
        = bridgeRun (fun v => decide (v < 3)) bridgeInit [0, 1, 2, 3, 4] := by
  refine ⟨by decide, by decide, ?_⟩
  exact bridgeRun_inactive _ _ extra (by decide)

/-- Witness for `bridge_takeWhile_latch`: after the scenario, the further
emissions `5, 0, 1` leave the bridge untouched. -/
theorem bridge_takeWhile_latch_witness :
    bridgeRun (fun v => decide (v < 3))
        (bridgeRun (fun v => decide (v < 3)) bridgeInit [0, 1, 2, 3, 4])
        [5, 0, 1]
      = bridgeRun (fun v => decide (v < 3)) bridgeInit [0, 1, 2, 3, 4] :=
  (bridge_takeWhile_latch [5, 0, 1]).2.2

end RxSignals
